import Mathlib

/-!
Verification of the spatial-grid geocaching game (src/src/main.ts, src/src/geocache.ts).

Shallow embedding notes:
* JavaScript numbers appearing in this program are integer-valued except for the
  pseudo-random oracle `luck`, whose values in [0,1) are modelled as rationals.
  `NaN` (and `undefined` coin fields, which behave the same for every operation the
  claims touch) is modelled as `Option.none`.
* JSON strings are modelled at the level of parsed JSON values: `JSON.stringify`
  produces the `Json` value of its argument (the program always stringifies plain
  data, where stringify and parse are mutually inverse up to this representation),
  and a stored string is either `Stored.parsed v` (a string that `JSON.parse` maps
  to `v`) or `Stored.unparseable s` (a string `JSON.parse` throws on).
* The DOM, leaflet map and localStorage mirror are UI plumbing outside the claims;
  the in-memory `cacheData` record and `inventory` array are modelled directly.
-/

namespace Geocaching

/-- Parsed JSON values. Numbers are restricted to the integers, which covers every
number this program ever serializes. -/
inductive Json where
  | null : Json
  | num : Int → Json
  | str : String → Json
  | arr : List Json → Json
  | obj : List (String × Json) → Json

/-- Property access `v[k]` as `fromMemento` performs it on a parsed value: a lookup
on an object, `undefined` (here `none`) on anything else. -/
def Json.lookup : Json → String → Option Json
  | Json.obj fields, k => List.lookup k fields
  | _, _ => none

/-- Coin record from geocache.ts; fields are `Option Int` so that the NaN/undefined
values produced by the unvalidated deposit decoding are representable (`none`). -/
structure Coin where
  i : Option Int
  j : Option Int
  number : Option Int
deriving DecidableEq

/-- A coin whose three fields are genuine integers (no NaN/undefined). -/
def Coin.wf (c : Coin) : Prop :=
  c.i.isSome = true ∧ c.j.isSome = true ∧ c.number.isSome = true

/-- Geocache record from geocache.ts (the data part of the object literal that
`createGeocache` builds). -/
structure Geocache where
  i : Int
  j : Int
  coins : List Coin
deriving DecidableEq

/-- `createGeocache(i, j, coins)` from geocache.ts, restricted to its data fields
(the two closures are modelled by `Geocache.toMemento` and `fromMemento` below). -/
def createGeocache (i : Int) (j : Int) (coins : List Coin) : Geocache :=
  { i := i, j := j, coins := coins }

/-- The state of a geocache object after `fromMemento` has assigned it raw parsed
values: each of the three fields holds whatever JSON value the snapshot had there,
or `none` for JavaScript `undefined` when the snapshot lacked the field. -/
structure GeocacheRaw where
  i : Option Json
  j : Option Json
  coins : Option Json

/-- JSON.stringify of a possibly-NaN number: NaN serializes as `null`. -/
def jsNumJson : Option Int → Json
  | some n => Json.num n
  | none => Json.null

/-- The JSON value a coin record serializes to. -/
def encodeCoin (c : Coin) : Json :=
  Json.obj [(("i"), jsNumJson c.i), (("j"), jsNumJson c.j), (("number"), jsNumJson c.number)]

/-- `toMemento` from geocache.ts: `JSON.stringify({ i, j, coins })`, modelled as the
parsed value of the produced string. -/
def Geocache.toMemento (g : Geocache) : Json :=
  Json.obj [(("i"), Json.num g.i), (("j"), Json.num g.j),
    (("coins"), Json.arr (g.coins.map encodeCoin))]

/-- `fromMemento` from geocache.ts applied to a fresh `createGeocache(0, 0)`:
`JSON.parse` the memento (already done in the `Stored.parsed` representation) and
assign `state.i`, `state.j`, `state.coins` — property accesses with no validation. -/
def fromMemento (v : Json) : GeocacheRaw :=
  { i := v.lookup ("i"), j := v.lookup ("j"), coins := v.lookup ("coins") }

/-- The raw field assignment a well-typed geocache corresponds to. -/
def rawOfGeocache (g : Geocache) : GeocacheRaw :=
  { i := some (Json.num g.i), j := some (Json.num g.j),
    coins := some (Json.arr (g.coins.map encodeCoin)) }

/-- One entry of a stringified object, dropped when the field is `undefined`
(JSON.stringify omits properties whose value is undefined). -/
def optEntry (k : String) : Option Json → List (String × Json)
  | some v => [(k, v)]
  | none => []

/-- `toMemento` invoked on a restored (raw) geocache object. -/
def GeocacheRaw.toMemento (g : GeocacheRaw) : Json :=
  Json.obj (optEntry ("i") g.i ++ optEntry ("j") g.j ++ optEntry ("coins") g.coins)

/-- A string held in the `cacheData` record, represented by what `JSON.parse` does
to it: `parsed v` for a string parsing to `v`, `unparseable s` for a string on
which `JSON.parse` throws a SyntaxError. -/
inductive Stored where
  | parsed : Json → Stored
  | unparseable : String → Stored

/-- The in-memory `cacheData: Record<string, string>`; assignment prepends, lookup
takes the first hit, which gives record-overwrite semantics. -/
abbrev Store : Type := List (String × Stored)

/-- Decimal rendering of a natural number, modelling the JavaScript number-to-string
conversion used by template literals: base-10 digits, most significant first. -/
def natToString (n : Nat) : String :=
  if n = 0 then ("0") else String.mk (((Nat.digits 10 n).map Nat.digitChar).reverse)

/-- Decimal rendering of an integer-valued JavaScript number: a leading minus sign
for negatives, decimal digits otherwise. -/
def intToString (i : Int) : String :=
  if i < 0 then ("-" ++ natToString i.natAbs) else natToString i.toNat

/-- Template-literal interpolation of a possibly-NaN number. -/
def jsNumToString : Option Int → String
  | some n => intToString n
  | none => ("NaN")

/-- `formatCoin` from main.ts (line 329): the canonical string of a coin. -/
def formatCoin (coin : Coin) : String :=
  jsNumToString coin.i ++ (":") ++ jsNumToString coin.j ++ ("#") ++ jsNumToString coin.number

/-- The cell key template from main.ts line 68. -/
structure Cell where
  i : Int
  j : Int
deriving DecidableEq

/-- The store key of a cell, the template literal on main.ts line 68. -/
def cellKey (cell : Cell) : String :=
  intToString cell.i ++ (",") ++ intToString cell.j

/-- Gameplay constants from main.ts lines 15-18. -/
def CACHE_SPAWN_PROBABILITY : ℚ := 1 / 10

/-- Maximum coin count per freshly spawned cache. -/
def MAX_COINS : Int := 5

/-- Minimum coin count per freshly spawned cache. -/
def MIN_COINS : Int := 1

/-- Inventory capacity. -/
def MAX_INVENTORY_SIZE : Nat := 10

/-- The coin list a fresh spawn generates, main.ts lines 78-90:
`Math.floor(luck(key + "_coins") * (MAX_COINS - MIN_COINS + 1)) + MIN_COINS` coins
numbered `0..count-1` carrying the cell coordinates. -/
def generatedCoins (luck : String → ℚ) (cell : Cell) : List Coin :=
  let numCoins : Int :=
    ⌊luck (cellKey cell ++ ("_coins")) * ((MAX_COINS - MIN_COINS + 1 : Int) : ℚ)⌋ + MIN_COINS
  (List.range numCoins.toNat).map fun (idx : Nat) =>
    { i := some cell.i, j := some cell.j, number := some (idx : Int) }

/-- Errors `ensureCacheExists` can throw: its own "No cache exists here." and the
SyntaxError propagating out of `JSON.parse` inside `fromMemento`. -/
inductive CacheErr where
  | noCacheHere : CacheErr
  | parseError : CacheErr
deriving DecidableEq

/-- The outcome of one `ensureCacheExists` call: the returned cache or thrown error,
the `cacheData` store afterwards, and the oracle keys passed to `luck` during the
call (for stating when the spawn decision is recomputed). -/
structure EnsureOut where
  result : Except CacheErr GeocacheRaw
  store : Store
  oracleCalls : List String

/-- `ensureCacheExists` from main.ts lines 67-96. A present key restores the
snapshot (throwing if the string does not parse); a missing key runs the spawn
test, throwing on failure without recording anything, otherwise generating coins,
persisting the new snapshot and returning the cache. -/
def ensureCacheExists (luck : String → ℚ) (store : Store) (cell : Cell) : EnsureOut :=
  match List.lookup (cellKey cell) store with
  | some (Stored.parsed v) => { result := Except.ok (fromMemento v), store := store, oracleCalls := [] }
  | some (Stored.unparseable _) =>
      { result := Except.error CacheErr.parseError, store := store, oracleCalls := [] }
  | none =>
      if CACHE_SPAWN_PROBABILITY ≤ luck (cellKey cell) then
        { result := Except.error CacheErr.noCacheHere, store := store, oracleCalls := [cellKey cell] }
      else
        { result := Except.ok (rawOfGeocache (createGeocache cell.i cell.j (generatedCoins luck cell))),
          store := (cellKey cell,
            Stored.parsed (Geocache.toMemento (createGeocache cell.i cell.j (generatedCoins luck cell)))) :: store,
          oracleCalls := [cellKey cell, cellKey cell ++ ("_coins")] }

/-- `updateCaches` from main.ts lines 256-275 restricted to its cache logic: for
each visible cell, `renderCacheOnMap` calls `ensureCacheExists` inside a try/catch;
a thrown error is logged and the loop continues. The result records, per cell, the
rendered cache (`some`) or the skip (`none`); `updateStep` is the body of the
forEach and `updateCaches` the whole loop. -/
def updateStep (luck : String → ℚ) (acc : Store × List (Cell × Option GeocacheRaw))
    (cell : Cell) : Store × List (Cell × Option GeocacheRaw) :=
  match (ensureCacheExists luck acc.1 cell).result with
  | Except.ok g => ((ensureCacheExists luck acc.1 cell).store, acc.2 ++ [(cell, some g)])
  | Except.error _ => ((ensureCacheExists luck acc.1 cell).store, acc.2 ++ [(cell, none)])

/-- The visibleCells.forEach loop of updateCaches, main.ts lines 264-274. -/
def updateCaches (luck : String → ℚ) (store : Store) (visibleCells : List Cell) :
    Store × List (Cell × Option GeocacheRaw) :=
  visibleCells.foldl (updateStep luck) (store, [])

/-- `addCoinToInventory` from main.ts lines 155-164: reject when full, else append,
returning the new inventory plus the success flag. -/
def addCoinToInventory (inventory : List String) (coin : String) : List String × Bool :=
  if MAX_INVENTORY_SIZE ≤ inventory.length then (inventory, false)
  else (inventory ++ [coin], true)

/-- The collectCoin click handler, main.ts lines 225-238: pop the last coin, try to
add its canonical string to the inventory, and push the coin back on rejection. -/
def collectClick (cache : Geocache) (inventory : List String) : Geocache × List String :=
  match cache.coins.getLast? with
  | none => (cache, inventory)
  | some coin =>
      match addCoinToInventory inventory (formatCoin coin) with
      | (inv2, true) => ({ cache with coins := cache.coins.dropLast }, inv2)
      | (inv2, false) => ({ cache with coins := cache.coins.dropLast ++ [coin] }, inv2)

/-- Accumulating decimal-numeral parser over characters: `none` as soon as a
non-digit appears. -/
def parseNatAux : List Char → Nat → Option Nat
  | [], acc => some acc
  | c :: rest, acc =>
      if '0' ≤ c ∧ c ≤ '9' then parseNatAux rest (acc * 10 + (c.toNat - ('0').toNat))
      else none

/-- The JavaScript `Number` conversion as the deposit handler applies it to the
pieces of a coin identifier: the empty string converts to 0, a decimal integer
numeral (optionally with a leading minus) to its value, anything else to NaN
(`none`). Other forms `Number` accepts (whitespace, plus sign, fractions,
exponents, hex) do not arise from this program and are outside the model. -/
def jsNumber (s : String) : Option Int :=
  match s.data with
  | [] => some 0
  | c :: rest =>
      if c = '-' then
        match rest with
        | [] => none
        | _ => (parseNatAux rest 0).map fun n => -(n : Int)
      else (parseNatAux (c :: rest) 0).map fun n => (n : Int)

/-- Splitting a character list at every ':' or '#', keeping empty pieces, as the
regex split `/[:#]/` does. -/
def splitSepsAux : List Char → List Char → List (List Char)
  | [], acc => [acc.reverse]
  | c :: rest, acc =>
      if c = ':' ∨ c = '#' then acc.reverse :: splitSepsAux rest []
      else splitSepsAux rest (c :: acc)

/-- The JavaScript `coinStr.split(/[:#]/)`. -/
def splitCoinId (s : String) : List String :=
  (splitSepsAux s.data []).map String.mk

/-- Decoding of a coin identifier in the depositCoin handler, main.ts line 245:
`coinStr.split(/[:#]/).map(Number)` destructured as `[i, j, number]`, missing
positions giving `undefined`. -/
def decodeCoinStr (coinStr : String) : Coin :=
  let parts := (splitCoinId coinStr).map jsNumber
  { i := (parts[0]?).join, j := (parts[1]?).join, number := (parts[2]?).join }

/-- The depositCoin click handler, main.ts lines 240-252: pop the last inventory
string, decode it without any validation, and push the resulting coin. -/
def depositClick (cache : Geocache) (inventory : List String) : Geocache × List String :=
  match inventory.getLast? with
  | none => (cache, inventory)
  | some coinStr =>
      ({ cache with coins := cache.coins ++ [decodeCoinStr coinStr] }, inventory.dropLast)

/-- A concrete oracle that always returns 0 (a value in [0,1) passing the spawn
test), for witnesses. -/
def luckZero : String → ℚ := fun _ => 0

/-- A concrete oracle that always returns 1 (failing the spawn test), for
witnesses. -/
def luckOne : String → ℚ := fun _ => 1

/-- The concrete cell (0,0) used by witnesses. -/
def cell00 : Cell := { i := 0, j := 0 }

/-- A concrete one-coin geocache at (0,0) used by witnesses. -/
def sampleCache : Geocache :=
  { i := 0, j := 0, coins := [{ i := some 0, j := some 0, number := some 0 }] }

/-- A store holding the snapshot of `sampleCache` under its own cell key. -/
def sampleStore : Store :=
  [(cellKey cell00, Stored.parsed (Geocache.toMemento sampleCache))]

/-- Helper: a geocache with its coin list replaced by the same list is itself. -/
theorem cache_eta (cache : Geocache) (l : List Coin) (h : cache.coins = l) :
    { cache with coins := l } = cache := by
  cases cache; simp_all

/-- C6: an inventory already holding MAX_INVENTORY_SIZE identifiers rejects a
further add, returning failure with the inventory unchanged at exactly that size;
an inventory strictly under capacity appends the identifier and returns success. -/
theorem addCoin_capacity (inventory : List String) (coin : String) :
    (inventory.length = MAX_INVENTORY_SIZE →
      addCoinToInventory inventory coin = (inventory, false)) ∧
    (inventory.length < MAX_INVENTORY_SIZE →
      addCoinToInventory inventory coin = (inventory ++ [coin], true)) := by
  constructor
  · intro h
    unfold addCoinToInventory
    rw [if_pos (le_of_eq h.symm)]
  · intro h
    unfold addCoinToInventory
    rw [if_neg (not_le.mpr h)]

/-- C6 witness: a concrete full inventory of ten identifiers rejects an eleventh
item unchanged, and the empty inventory accepts it. -/
theorem addCoin_capacity_witness :
    addCoinToInventory
        [("c0"), ("c1"), ("c2"), ("c3"), ("c4"), ("c5"), ("c6"), ("c7"), ("c8"), ("c9")] ("z")
      = ([("c0"), ("c1"), ("c2"), ("c3"), ("c4"), ("c5"), ("c6"), ("c7"), ("c8"), ("c9")], false) ∧
    addCoinToInventory [] ("z") = ([("z")], true) :=
  ⟨(addCoin_capacity _ _).1 rfl, (addCoin_capacity _ _).2 (by decide)⟩

/-- C3: the collect (withdraw) handler is atomic: on an empty cache nothing
changes; otherwise the last coin is popped and, when the inventory is under
capacity, appended to the inventory with the coin removed from the cache, while a
rejected add restores the coin so cache and inventory are exactly as before. -/
theorem collect_atomic (cache : Geocache) (inventory : List String) :
    (cache.coins = [] → collectClick cache inventory = (cache, inventory)) ∧
    (∀ coin, cache.coins.getLast? = some coin →
      (inventory.length < MAX_INVENTORY_SIZE →
        collectClick cache inventory =
          ({ cache with coins := cache.coins.dropLast }, inventory ++ [formatCoin coin])) ∧
      (MAX_INVENTORY_SIZE ≤ inventory.length →
        collectClick cache inventory = (cache, inventory))) := by
  constructor
  · intro h
    simp [collectClick, h]
  · intro coin hc
    constructor
    · intro hlen
      have hadd : addCoinToInventory inventory (formatCoin coin) =
          (inventory ++ [formatCoin coin], true) := by
        unfold addCoinToInventory
        rw [if_neg (not_le.mpr hlen)]
      simp [collectClick, hc, hadd]
    · intro hlen
      have hadd : addCoinToInventory inventory (formatCoin coin) = (inventory, false) := by
        unfold addCoinToInventory
        rw [if_pos hlen]
      rcases List.eq_nil_or_concat cache.coins with hnil | ⟨L, b, hconcat⟩
      · rw [hnil] at hc
        simp at hc
      · rw [List.concat_eq_append] at hconcat
        have hb : b = coin := by
          rw [hconcat, List.getLast?_concat] at hc
          exact Option.some.inj hc
        subst hb
        have hdrop : cache.coins.dropLast ++ [b] = cache.coins := by
          rw [hconcat, List.dropLast_concat]
        simp only [collectClick, hc, hadd]
        rw [cache_eta cache _ hdrop.symm]

/-- C3 witness: collecting from a one-coin cache into an empty inventory moves the
coin, and into a full inventory leaves cache and inventory untouched. -/
theorem collect_atomic_witness :
    (collectClick { i := 0, j := 0, coins := [{ i := some 0, j := some 0, number := some 0 }] } []
      = ({ i := 0, j := 0, coins := [] },
          [formatCoin { i := some 0, j := some 0, number := some 0 }])) ∧
    (collectClick { i := 0, j := 0, coins := [{ i := some 0, j := some 0, number := some 0 }] }
        [("c0"), ("c1"), ("c2"), ("c3"), ("c4"), ("c5"), ("c6"), ("c7"), ("c8"), ("c9")]
      = ({ i := 0, j := 0, coins := [{ i := some 0, j := some 0, number := some 0 }] },
          [("c0"), ("c1"), ("c2"), ("c3"), ("c4"), ("c5"), ("c6"), ("c7"), ("c8"), ("c9")])) :=
  ⟨((collect_atomic { i := 0, j := 0, coins := [{ i := some 0, j := some 0, number := some 0 }] }
        []).2 { i := some 0, j := some 0, number := some 0 } rfl).1 (by decide),
   ((collect_atomic { i := 0, j := 0, coins := [{ i := some 0, j := some 0, number := some 0 }] }
        [("c0"), ("c1"), ("c2"), ("c3"), ("c4"), ("c5"), ("c6"), ("c7"), ("c8"), ("c9")]).2
      { i := some 0, j := some 0, number := some 0 } rfl).2 (by decide)⟩

/-- C10: the click handlers conserve coins. A successful collect removes exactly
one coin from the cache and adds exactly one identifier to the inventory; a
capacity-rejected collect leaves both counts unchanged; a deposit from a nonempty
inventory removes exactly one identifier and adds exactly one coin to the cache;
clicks with an empty source change neither count; and in every case the combined
count of cache coins and inventory items is preserved — no coin is created or
destroyed. -/
theorem transfer_conserves_coins (cache : Geocache) (inventory : List String) :
    ((collectClick cache inventory).1.coins.length + ((collectClick cache inventory).2).length
      = cache.coins.length + inventory.length) ∧
    ((depositClick cache inventory).1.coins.length + ((depositClick cache inventory).2).length
      = cache.coins.length + inventory.length) ∧
    (cache.coins ≠ [] → inventory.length < MAX_INVENTORY_SIZE →
      (collectClick cache inventory).1.coins.length + 1 = cache.coins.length ∧
      ((collectClick cache inventory).2).length = inventory.length + 1) ∧
    (MAX_INVENTORY_SIZE ≤ inventory.length →
      (collectClick cache inventory).1.coins.length = cache.coins.length ∧
      ((collectClick cache inventory).2).length = inventory.length) ∧
    (cache.coins = [] →
      (collectClick cache inventory).1.coins.length = cache.coins.length ∧
      ((collectClick cache inventory).2).length = inventory.length) ∧
    (inventory ≠ [] →
      (depositClick cache inventory).1.coins.length = cache.coins.length + 1 ∧
      ((depositClick cache inventory).2).length + 1 = inventory.length) ∧
    (inventory = [] →
      (depositClick cache inventory).1.coins.length = cache.coins.length ∧
      ((depositClick cache inventory).2).length = inventory.length) := by
  refine ⟨?_, ?_, ?_, ?_, ?_, ?_, ?_⟩
  · rcases List.eq_nil_or_concat cache.coins with hnil | ⟨L, b, hconcat⟩
    · simp [collectClick, hnil]
    · rw [List.concat_eq_append] at hconcat
      have hlast : cache.coins.getLast? = some b := by
        rw [hconcat]
        exact List.getLast?_concat L
      by_cases hlen : MAX_INVENTORY_SIZE ≤ inventory.length
      · have hadd : addCoinToInventory inventory (formatCoin b) = (inventory, false) := by
          unfold addCoinToInventory
          rw [if_pos hlen]
        simp only [collectClick, hlast, hadd]
        rw [hconcat]
        simp only [List.dropLast_concat, List.length_append, List.length_cons,
          List.length_nil]
      · have hadd : addCoinToInventory inventory (formatCoin b) =
            (inventory ++ [formatCoin b], true) := by
          unfold addCoinToInventory
          rw [if_neg hlen]
        simp only [collectClick, hlast, hadd]
        rw [hconcat]
        simp only [List.dropLast_concat, List.length_append, List.length_cons,
          List.length_nil]
        omega
  · rcases List.eq_nil_or_concat inventory with hnil | ⟨L, s, hconcat⟩
    · simp [depositClick, hnil]
    · rw [List.concat_eq_append] at hconcat
      have hlast : inventory.getLast? = some s := by
        rw [hconcat]
        exact List.getLast?_concat L
      simp only [depositClick, hlast]
      rw [hconcat]
      simp only [List.dropLast_concat, List.length_append, List.length_cons,
        List.length_nil]
      omega
  · intro hne hlen
    rcases List.eq_nil_or_concat cache.coins with hnil | ⟨L, b, hconcat⟩
    · exact absurd hnil hne
    · rw [List.concat_eq_append] at hconcat
      have hlast : cache.coins.getLast? = some b := by
        rw [hconcat]
        exact List.getLast?_concat L
      have hadd : addCoinToInventory inventory (formatCoin b) =
          (inventory ++ [formatCoin b], true) := by
        unfold addCoinToInventory
        rw [if_neg (not_le.mpr hlen)]
      simp only [collectClick, hlast, hadd]
      rw [hconcat]
      simp only [List.dropLast_concat, List.length_append, List.length_cons,
        List.length_nil]
      exact ⟨trivial, trivial⟩
  · intro hlen
    rcases List.eq_nil_or_concat cache.coins with hnil | ⟨L, b, hconcat⟩
    · simp [collectClick, hnil]
    · rw [List.concat_eq_append] at hconcat
      have hlast : cache.coins.getLast? = some b := by
        rw [hconcat]
        exact List.getLast?_concat L
      have hadd : addCoinToInventory inventory (formatCoin b) = (inventory, false) := by
        unfold addCoinToInventory
        rw [if_pos hlen]
      simp only [collectClick, hlast, hadd]
      rw [hconcat]
      simp only [List.dropLast_concat, List.length_append, List.length_cons,
        List.length_nil]
      exact ⟨trivial, trivial⟩
  · intro h
    simp [collectClick, h]
  · intro hne
    rcases List.eq_nil_or_concat inventory with hnil | ⟨L, s, hconcat⟩
    · exact absurd hnil hne
    · rw [List.concat_eq_append] at hconcat
      have hlast : inventory.getLast? = some s := by
        rw [hconcat]
        exact List.getLast?_concat L
      simp only [depositClick, hlast]
      rw [hconcat]
      simp only [List.dropLast_concat, List.length_append, List.length_cons,
        List.length_nil]
      exact ⟨trivial, trivial⟩
  · intro h
    simp [depositClick, h]

/-- C10 witness: concrete transfers — a successful collect moves exactly one coin,
a collect into a full inventory changes neither count, and a deposit moves exactly
one identifier into the cache. -/
theorem transfer_conserves_coins_witness :
    ((collectClick { i := 0, j := 0, coins := [{ i := some 0, j := some 0, number := some 0 }] }
        []).1.coins.length + 1 = 1 ∧
      ((collectClick { i := 0, j := 0, coins := [{ i := some 0, j := some 0, number := some 0 }] }
        []).2).length = 0 + 1) ∧
    ((collectClick { i := 0, j := 0, coins := [{ i := some 0, j := some 0, number := some 0 }] }
        [("c0"), ("c1"), ("c2"), ("c3"), ("c4"), ("c5"), ("c6"), ("c7"), ("c8"), ("c9")]).1.coins.length
        = 1 ∧
      ((collectClick { i := 0, j := 0, coins := [{ i := some 0, j := some 0, number := some 0 }] }
        [("c0"), ("c1"), ("c2"), ("c3"), ("c4"), ("c5"), ("c6"), ("c7"), ("c8"), ("c9")]).2).length
        = 10) ∧
    ((depositClick { i := 0, j := 0, coins := [] } [("x")]).1.coins.length = 0 + 1 ∧
      ((depositClick { i := 0, j := 0, coins := [] } [("x")]).2).length + 1 = 1) :=
  ⟨(transfer_conserves_coins
      { i := 0, j := 0, coins := [{ i := some 0, j := some 0, number := some 0 }] }
      []).2.2.1 (by decide) (by decide),
   (transfer_conserves_coins
      { i := 0, j := 0, coins := [{ i := some 0, j := some 0, number := some 0 }] }
      [("c0"), ("c1"), ("c2"), ("c3"), ("c4"), ("c5"), ("c6"), ("c7"), ("c8"), ("c9")]).2.2.2.1
      (by decide),
   (transfer_conserves_coins { i := 0, j := 0, coins := [] } [("x")]).2.2.2.2.2.1 (by decide)⟩

/-- C4 counterexample: depositing the undecodable identifier "x" is not rejected:
the identifier leaves the inventory and a coin whose three fields are NaN is pushed
into the cache, so both sides change. -/
theorem deposit_malformed_changes_state :
    depositClick { i := 0, j := 0, coins := [] } [("x")]
      = ({ i := 0, j := 0, coins := [{ i := none, j := none, number := none }] }, []) ∧
    depositClick { i := 0, j := 0, coins := [] } [("x")]
      ≠ ({ i := 0, j := 0, coins := [] }, [("x")]) := by
  constructor
  · rfl
  · decide

/-- C4 amended: the deposit handler performs no validation at all — whenever the
inventory is nonempty it removes the last identifier and appends the decoded coin
(whose fields are NaN or undefined when the identifier fails to decode) to the
cache, so a malformed identifier changes both sides instead of being rejected. -/
theorem deposit_never_rejects (cache : Geocache) (inventory : List String) (coinStr : String)
    (h : inventory.getLast? = some coinStr) :
    depositClick cache inventory
      = ({ cache with coins := cache.coins ++ [decodeCoinStr coinStr] }, inventory.dropLast) := by
  unfold depositClick
  rw [h]

/-- C4 amended witness: the concrete malformed deposit of "x" from a singleton
inventory. -/
theorem deposit_never_rejects_witness :
    depositClick { i := 0, j := 0, coins := [] } [("y")]
      = ({ i := 0, j := 0, coins := [decodeCoinStr ("y")] },
          ([("y")] : List String).dropLast) :=
  deposit_never_rejects _ _ _ rfl

/-- Helper: one forEach step appends exactly one record for its cell. -/
theorem updateStep_snd (luck : String → ℚ) (acc : Store × List (Cell × Option GeocacheRaw))
    (cell : Cell) :
    ∃ x, (updateStep luck acc cell).2 = acc.2 ++ [(cell, x)] := by
  cases hres : (ensureCacheExists luck acc.1 cell).result with
  | ok g =>
      refine ⟨some g, ?_⟩
      simp only [updateStep, hres]
  | error e =>
      refine ⟨none, ?_⟩
      simp only [updateStep, hres]

/-- Helper: the forEach over any cell list records an entry for every cell, in
order, regardless of which cells error. -/
theorem updateCaches_foldl_fst (luck : String → ℚ) :
    ∀ (cells : List Cell) (store : Store) (acc : List (Cell × Option GeocacheRaw)),
      ((cells.foldl (updateStep luck) (store, acc)).2).map Prod.fst
        = acc.map Prod.fst ++ cells := by
  intro cells
  induction cells with
  | nil =>
      intro store acc
      simp
  | cons c t ih =>
      intro store acc
      rw [List.foldl_cons]
      obtain ⟨x, hx⟩ := updateStep_snd luck (store, acc) c
      have hsplit : updateStep luck (store, acc) c
          = ((updateStep luck (store, acc) c).1, acc ++ [(c, x)]) := by
        rw [← hx]
      rw [hsplit, ih]
      simp

/-- C7: enumerating the visible cells processes every cell: the per-cell try/catch
turns a cache-absent (or any other) error into a skip, so the result of
updateCaches records an outcome for each cell of the input, in order — one cell's
absence never aborts the others. -/
theorem updateCaches_processes_every_cell (luck : String → ℚ) (store : Store)
    (cells : List Cell) :
    ((updateCaches luck store cells).2).map Prod.fst = cells := by
  unfold updateCaches
  rw [updateCaches_foldl_fst]
  simp

/-- C1: round-trip law. Restoring a geocache from its own snapshot and
re-serializing yields the identical snapshot, and `ensureCacheExists` on a cell
whose snapshot is stored returns a cache carrying exactly the `{i, j, coins}` of
the cache that produced the snapshot, leaving the store unchanged. -/
theorem ensure_roundTrip (luck : String → ℚ) (g : Geocache) (store : Store)
    (h : List.lookup (cellKey { i := g.i, j := g.j }) store
        = some (Stored.parsed (Geocache.toMemento g))) :
    GeocacheRaw.toMemento (fromMemento (Geocache.toMemento g)) = Geocache.toMemento g ∧
    (ensureCacheExists luck store { i := g.i, j := g.j }).result
      = Except.ok (rawOfGeocache g) ∧
    (ensureCacheExists luck store { i := g.i, j := g.j }).store = store := by
  refine ⟨rfl, ?_, ?_⟩
  · simp only [ensureCacheExists, h]
    rfl
  · simp only [ensureCacheExists, h]

/-- C1 witness: the snapshot of a concrete one-coin cache restores and
re-serializes identically. -/
theorem ensure_roundTrip_witness :
    GeocacheRaw.toMemento (fromMemento (Geocache.toMemento sampleCache))
      = Geocache.toMemento sampleCache ∧
    (ensureCacheExists luckZero sampleStore { i := sampleCache.i, j := sampleCache.j }).result
      = Except.ok (rawOfGeocache sampleCache) ∧
    (ensureCacheExists luckZero sampleStore { i := sampleCache.i, j := sampleCache.j }).store
      = sampleStore :=
  ensure_roundTrip luckZero sampleCache sampleStore rfl

/-- C2 counterexample: with an oracle returning 1 the spawn test for cell (0,0)
fails; nothing is recorded, so a second request for the same cell invokes the
oracle again — the absent decision is not remembered in the store. -/
theorem spawn_absent_reinvokes_oracle :
    (ensureCacheExists luckOne ((ensureCacheExists luckOne [] cell00).store) cell00).oracleCalls
      ≠ [] := by
  have h1 : ensureCacheExists luckOne [] cell00
      = { result := Except.error CacheErr.noCacheHere, store := [],
          oracleCalls := [cellKey cell00] } := by
    have hl : List.lookup (cellKey cell00) ([] : Store) = none := rfl
    simp only [ensureCacheExists, hl]
    rw [if_pos (by norm_num [luckOne, CACHE_SPAWN_PROBABILITY])]
  rw [h1]
  show (ensureCacheExists luckOne [] cell00).oracleCalls ≠ []
  rw [h1]
  simp

/-- C2 amended: a cell whose key is present in the store (a materialized cache or
any recorded snapshot) is answered from the store with no oracle invocation and no
store change; but a failed spawn test records nothing — the store is unchanged and
the spawn oracle key is consulted again on every subsequent request, each time
reaching the same absent outcome (coin generation is never re-invoked after
materialization, since materialization stores the key). -/
theorem spawn_decision_memo (luck : String → ℚ) (store : Store) (cell : Cell) :
    (∀ s, List.lookup (cellKey cell) store = some s →
      (ensureCacheExists luck store cell).oracleCalls = [] ∧
      (ensureCacheExists luck store cell).store = store) ∧
    (List.lookup (cellKey cell) store = none →
      CACHE_SPAWN_PROBABILITY ≤ luck (cellKey cell) →
      ensureCacheExists luck store cell =
        { result := Except.error CacheErr.noCacheHere, store := store,
          oracleCalls := [cellKey cell] }) := by
  constructor
  · intro s h
    cases s with
    | parsed v =>
        constructor <;> simp only [ensureCacheExists, h]
    | unparseable r =>
        constructor <;> simp only [ensureCacheExists, h]
  · intro h hp
    simp only [ensureCacheExists, h]
    rw [if_pos hp]

/-- C2 amended witness: the stored sample snapshot is answered with no oracle
call, and a fresh failing cell is answered absent with the store unchanged. -/
theorem spawn_decision_memo_witness :
    ((ensureCacheExists luckOne sampleStore cell00).oracleCalls = [] ∧
     (ensureCacheExists luckOne sampleStore cell00).store = sampleStore) ∧
    ensureCacheExists luckOne [] cell00 =
      { result := Except.error CacheErr.noCacheHere, store := [],
        oracleCalls := [cellKey cell00] } :=
  ⟨(spawn_decision_memo luckOne sampleStore cell00).1
      (Stored.parsed (Geocache.toMemento sampleCache)) rfl,
   (spawn_decision_memo luckOne [] cell00).2 rfl
      (by norm_num [luckOne, CACHE_SPAWN_PROBABILITY])⟩

/-- C8 counterexample: the snapshot string parsing to the record-less JSON value
`{}` does not yield the cache-absent outcome: `ensureCacheExists` returns a cache
object whose three fields are all undefined. -/
theorem snapshot_nonrecord_yields_garbage_cache :
    (ensureCacheExists luckZero [(cellKey cell00, Stored.parsed (Json.obj []))] cell00).result
      = Except.ok { i := none, j := none, coins := none } ∧
    ∀ e : CacheErr,
      (ensureCacheExists luckZero [(cellKey cell00, Stored.parsed (Json.obj []))] cell00).result
        ≠ Except.error e := by
  refine ⟨rfl, ?_⟩
  intro e h
  rw [show (ensureCacheExists luckZero [(cellKey cell00, Stored.parsed (Json.obj []))]
      cell00).result = Except.ok { i := none, j := none, coins := none } from rfl] at h
  simp at h

/-- C8 amended: a stored snapshot string on which JSON.parse throws makes
`ensureCacheExists` throw the parse error with the store untouched; `updateCaches`
catches it, skips the cell, and still records an outcome for every cell of the
neighborhood. A snapshot that parses as JSON but is not an `{i, j, coins}` record
is, however, returned as a cache with undefined fields, not treated as absent. -/
theorem snapshot_parse_failure_skips (luck : String → ℚ) (store : Store) (cell : Cell)
    (raw : String) (cells : List Cell)
    (h : List.lookup (cellKey cell) store = some (Stored.unparseable raw)) :
    ensureCacheExists luck store cell =
      { result := Except.error CacheErr.parseError, store := store, oracleCalls := [] } ∧
    ((updateCaches luck store cells).2).map Prod.fst = cells := by
  constructor
  · simp only [ensureCacheExists, h]
  · unfold updateCaches
    rw [updateCaches_foldl_fst]
    simp

/-- C8 amended witness: a concrete unparseable snapshot at (0,0) throws the parse
error and the one-cell neighborhood is still fully enumerated. -/
theorem snapshot_parse_failure_skips_witness :
    ensureCacheExists luckZero [(cellKey cell00, Stored.unparseable ("oops"))] cell00 =
      { result := Except.error CacheErr.parseError,
        store := [(cellKey cell00, Stored.unparseable ("oops"))], oracleCalls := [] } ∧
    ((updateCaches luckZero [(cellKey cell00, Stored.unparseable ("oops"))] [cell00]).2).map
        Prod.fst = [cell00] :=
  snapshot_parse_failure_skips luckZero [(cellKey cell00, Stored.unparseable ("oops"))]
    cell00 ("oops") [cell00] rfl

/-- C5: when the oracle value for the coin key lies in [0,1) and the spawn test
passes on a fresh cell, the spawned cache holds between MIN_COINS and MAX_COINS
coins (1 to 5 inclusive), numbered 0..count-1 and carrying the cell's own i and j. -/
theorem spawn_coin_count (luck : String → ℚ) (store : Store) (cell : Cell)
    (hnone : List.lookup (cellKey cell) store = none)
    (hspawn : luck (cellKey cell) < CACHE_SPAWN_PROBABILITY)
    (h0 : 0 ≤ luck (cellKey cell ++ ("_coins")))
    (h1 : luck (cellKey cell ++ ("_coins")) < 1) :
    (ensureCacheExists luck store cell).result
      = Except.ok (rawOfGeocache (createGeocache cell.i cell.j (generatedCoins luck cell))) ∧
    MIN_COINS.toNat ≤ (generatedCoins luck cell).length ∧
    (generatedCoins luck cell).length ≤ MAX_COINS.toNat ∧
    ∀ k, ∀ hk : k < (generatedCoins luck cell).length,
      (generatedCoins luck cell)[k]
        = { i := some cell.i, j := some cell.j, number := some (k : Int) } := by
  have hcast : ((MAX_COINS - MIN_COINS + 1 : Int) : ℚ) = 5 := by
    norm_num [MAX_COINS, MIN_COINS]
  have hfl0 : 0 ≤ ⌊luck (cellKey cell ++ ("_coins")) * ((MAX_COINS - MIN_COINS + 1 : Int) : ℚ)⌋ := by
    apply Int.floor_nonneg.mpr
    rw [hcast]
    have h5 : (0 : ℚ) ≤ 5 := by norm_num
    exact mul_nonneg h0 h5
  have hfl5 : ⌊luck (cellKey cell ++ ("_coins")) * ((MAX_COINS - MIN_COINS + 1 : Int) : ℚ)⌋ < 5 := by
    rw [show (5 : Int) = ((5 : Int)) from rfl]
    apply Int.floor_lt.mpr
    rw [hcast]
    push_cast
    linarith [mul_lt_mul_of_pos_right h1 (show (0 : ℚ) < 5 by norm_num)]
  have hlen : (generatedCoins luck cell).length
      = (⌊luck (cellKey cell ++ ("_coins")) * ((MAX_COINS - MIN_COINS + 1 : Int) : ℚ)⌋
          + MIN_COINS).toNat := by
    simp only [generatedCoins, List.length_map, List.length_range]
  have hmin : MIN_COINS = 1 := rfl
  have hmax : MAX_COINS = 5 := rfl
  refine ⟨?_, ?_, ?_, ?_⟩
  · simp only [ensureCacheExists, hnone]
    rw [if_neg (not_le.mpr hspawn)]
  · rw [hlen]
    omega
  · rw [hlen]
    omega
  · intro k hk
    unfold generatedCoins
    rw [List.getElem_map, List.getElem_range]

/-- C5 witness: the all-zero oracle spawns at (0,0): its coin count lies in the
required range and its coins are numbered from 0 with the cell coordinates. -/
theorem spawn_coin_count_witness :
    (ensureCacheExists luckZero [] cell00).result
      = Except.ok (rawOfGeocache (createGeocache cell00.i cell00.j
          (generatedCoins luckZero cell00))) ∧
    MIN_COINS.toNat ≤ (generatedCoins luckZero cell00).length ∧
    (generatedCoins luckZero cell00).length ≤ MAX_COINS.toNat ∧
    ∀ k, ∀ hk : k < (generatedCoins luckZero cell00).length,
      (generatedCoins luckZero cell00)[k]
        = { i := some cell00.i, j := some cell00.j, number := some (k : Int) } :=
  spawn_coin_count luckZero [] cell00 rfl
    (by norm_num [luckZero, CACHE_SPAWN_PROBABILITY])
    (by norm_num [luckZero]) (by norm_num [luckZero])

/-- Helper: digit characters are distinct for distinct digits below ten. -/
theorem digitChar_injOn : ∀ a, a < 10 → ∀ b, b < 10 → Nat.digitChar a = Nat.digitChar b → a = b := by
  decide

/-- Helper: no digit character is a separator or the minus sign. -/
theorem digitChar_not_special :
    ∀ a, a < 10 → Nat.digitChar a ≠ (':') ∧ Nat.digitChar a ≠ ('#') ∧ Nat.digitChar a ≠ ('-') := by
  decide

/-- Helper: every character of a rendered natural number is a digit character. -/
theorem mem_natToString (n : Nat) (c : Char) (hc : c ∈ (natToString n).data) :
    ∃ d, d < 10 ∧ c = Nat.digitChar d := by
  unfold natToString at hc
  by_cases h : n = 0
  · rw [if_pos h] at hc
    have h0 : (("0") : String).data = [('0')] := rfl
    rw [h0, List.mem_singleton] at hc
    exact ⟨0, by norm_num, by rw [hc]; rfl⟩
  · rw [if_neg h] at hc
    have hc2 : c ∈ ((Nat.digits 10 n).map Nat.digitChar).reverse := hc
    rw [List.mem_reverse] at hc2
    rcases List.mem_map.mp hc2 with ⟨d, hd, hdc⟩
    exact ⟨d, Nat.digits_lt_base (by norm_num) hd, hdc.symm⟩

/-- Helper: the rendering of a natural number is never the empty string. -/
theorem natToString_ne_nil (n : Nat) : (natToString n).data ≠ [] := by
  unfold natToString
  by_cases h : n = 0
  · rw [if_pos h]
    exact (by decide)
  · rw [if_neg h]
    show ((Nat.digits 10 n).map Nat.digitChar).reverse ≠ []
    simp [Nat.digits_ne_nil_iff_ne_zero, h]

/-- Helper: only zero renders as the string "0". -/
theorem natToString_eq_zero (n : Nat) (h : natToString n = ("0")) : n = 0 := by
  by_contra hn
  unfold natToString at h
  rw [if_neg hn] at h
  have hd : ((Nat.digits 10 n).map Nat.digitChar).reverse = [('0')] := congrArg String.data h
  have hl : (Nat.digits 10 n).map Nat.digitChar = [('0')] := by
    have := congrArg List.reverse hd
    simpa using this
  cases hdig : Nat.digits 10 n with
  | nil =>
      rw [hdig] at hl
      simp at hl
  | cons d t =>
      rw [hdig] at hl
      simp only [List.map_cons] at hl
      injection hl with hchar hrest
      have ht : t = [] := by
        cases t with
        | nil => rfl
        | cons x xs => simp at hrest
      have hd10 : d < 10 := by
        apply Nat.digits_lt_base (by norm_num)
        rw [hdig]
        exact List.mem_cons_self d t
      have hd0 : d = 0 := digitChar_injOn d hd10 0 (by norm_num) (by rw [hchar]; rfl)
      have hn0 : n = Nat.ofDigits 10 (Nat.digits 10 n) := (Nat.ofDigits_digits 10 n).symm
      rw [hdig, ht, hd0] at hn0
      simp [Nat.ofDigits] at hn0
      exact hn hn0

/-- Helper: mapping digits to digit characters is cancellable on digit lists. -/
theorem map_digitChar_cancel :
    ∀ (l1 l2 : List Nat), (∀ x ∈ l1, x < 10) → (∀ x ∈ l2, x < 10) →
      l1.map Nat.digitChar = l2.map Nat.digitChar → l1 = l2 := by
  intro l1
  induction l1 with
  | nil =>
      intro l2 _ _ h
      cases l2 with
      | nil => rfl
      | cons b t => simp at h
  | cons a t ih =>
      intro l2 h1 h2 h
      cases l2 with
      | nil => simp at h
      | cons b t2 =>
          simp only [List.map_cons, List.cons.injEq] at h
          have ha : a < 10 := h1 a (List.mem_cons_self a t)
          have hb : b < 10 := h2 b (List.mem_cons_self b t2)
          have hab : a = b := digitChar_injOn a ha b hb h.1
          have ht : t = t2 := ih t2 (fun x hx => h1 x (List.mem_cons_of_mem a hx))
            (fun x hx => h2 x (List.mem_cons_of_mem b hx)) h.2
          rw [hab, ht]

/-- Helper: the decimal rendering of natural numbers is injective. -/
theorem natToString_inj (m n : Nat) (h : natToString m = natToString n) : m = n := by
  by_cases hm : m = 0 <;> by_cases hn : n = 0
  · rw [hm, hn]
  · exfalso
    rw [hm] at h
    exact hn (natToString_eq_zero n h.symm)
  · exfalso
    rw [hn] at h
    exact hm (natToString_eq_zero m h)
  · unfold natToString at h
    rw [if_neg hm, if_neg hn] at h
    have hd : ((Nat.digits 10 m).map Nat.digitChar).reverse
        = ((Nat.digits 10 n).map Nat.digitChar).reverse := congrArg String.data h
    have hmap := List.reverse_inj.mp hd
    have hdig : Nat.digits 10 m = Nat.digits 10 n :=
      map_digitChar_cancel _ _ (fun x hx => Nat.digits_lt_base (by norm_num) hx)
        (fun x hx => Nat.digits_lt_base (by norm_num) hx) hmap
    have hcon := congrArg (Nat.ofDigits 10) hdig
    rw [Nat.ofDigits_digits, Nat.ofDigits_digits] at hcon
    exact_mod_cast hcon

/-- Helper: every character of a rendered integer is the minus sign or a digit. -/
theorem mem_intToString (i : Int) (c : Char) (hc : c ∈ (intToString i).data) :
    c = ('-') ∨ ∃ d, d < 10 ∧ c = Nat.digitChar d := by
  unfold intToString at hc
  by_cases h : i < 0
  · rw [if_pos h, String.data_append] at hc
    have hmd : (("-") : String).data = [('-')] := rfl
    rw [hmd, List.singleton_append] at hc
    rcases List.mem_cons.mp hc with h1 | h2
    · exact Or.inl h1
    · exact Or.inr (mem_natToString _ _ h2)
  · rw [if_neg h] at hc
    exact Or.inr (mem_natToString _ _ hc)

/-- Helper: rendered integers contain neither separator character. -/
theorem intToString_no_sep (a : Int) (c : Char) (hc : c ∈ (intToString a).data) :
    c ≠ (':') ∧ c ≠ ('#') := by
  rcases mem_intToString a c hc with h | ⟨d, hd, hdc⟩
  · subst h
    exact ⟨by decide, by decide⟩
  · subst hdc
    have h3 := digitChar_not_special d hd
    exact ⟨h3.1, h3.2.1⟩

/-- Helper: the colon never occurs in a rendered integer. -/
theorem colon_not_mem_intToString (a : Int) : (':') ∉ (intToString a).data :=
  fun hx => (intToString_no_sep a (':') hx).1 rfl

/-- Helper: the hash never occurs in a rendered integer. -/
theorem hash_not_mem_intToString (a : Int) : ('#') ∉ (intToString a).data :=
  fun hx => (intToString_no_sep a ('#') hx).2 rfl

/-- Helper: the decimal rendering of integers is injective. -/
theorem intToString_inj (a b : Int) (h : intToString a = intToString b) : a = b := by
  unfold intToString at h
  by_cases ha : a < 0 <;> by_cases hb : b < 0
  · rw [if_pos ha, if_pos hb] at h
    have hd := congrArg String.data h
    rw [String.data_append, String.data_append] at hd
    have hmd : (("-") : String).data = [('-')] := rfl
    rw [hmd] at hd
    simp only [List.singleton_append, List.cons.injEq, true_and] at hd
    have := natToString_inj _ _ (String.ext hd)
    omega
  · exfalso
    rw [if_pos ha, if_neg hb] at h
    have hd := congrArg String.data h
    rw [String.data_append] at hd
    have hmd : (("-") : String).data = [('-')] := rfl
    rw [hmd, List.singleton_append] at hd
    have hmem : ('-') ∈ (natToString b.toNat).data := by
      rw [← hd]
      exact List.mem_cons_self _ _
    rcases mem_natToString _ _ hmem with ⟨d, hd10, hdc⟩
    exact (digitChar_not_special d hd10).2.2 hdc.symm
  · exfalso
    rw [if_neg ha, if_pos hb] at h
    have hd := congrArg String.data h.symm
    rw [String.data_append] at hd
    have hmd : (("-") : String).data = [('-')] := rfl
    rw [hmd, List.singleton_append] at hd
    have hmem : ('-') ∈ (natToString a.toNat).data := by
      rw [← hd]
      exact List.mem_cons_self _ _
    rcases mem_natToString _ _ hmem with ⟨d, hd10, hdc⟩
    exact (digitChar_not_special d hd10).2.2 hdc.symm
  · rw [if_neg ha, if_neg hb] at h
    have := natToString_inj _ _ h
    omega

/-- Helper: appending at the first occurrence of a marker character is
cancellable when the prefixes avoid the marker. -/
theorem append_cons_cancel (c : Char) :
    ∀ (as bs as2 bs2 : List Char), c ∉ as → c ∉ as2 →
      as ++ c :: bs = as2 ++ c :: bs2 → as = as2 ∧ bs = bs2 := by
  intro as
  induction as with
  | nil =>
      intro bs as2 bs2 _ h2 heq
      cases as2 with
      | nil =>
          simp only [List.nil_append, List.cons.injEq] at heq
          exact ⟨rfl, heq.2⟩
      | cons a t =>
          exfalso
          simp only [List.nil_append, List.cons_append, List.cons.injEq] at heq
          apply h2
          rw [heq.1]
          exact List.mem_cons_self a t
  | cons a t ih =>
      intro bs as2 bs2 h1 h2 heq
      cases as2 with
      | nil =>
          exfalso
          simp only [List.cons_append, List.nil_append, List.cons.injEq] at heq
          apply h1
          rw [← heq.1]
          exact List.mem_cons_self a t
      | cons a2 t2 =>
          simp only [List.cons_append, List.cons.injEq] at heq
          obtain ⟨hae, heq2⟩ := heq
          have h1t : c ∉ t := fun hx => h1 (List.mem_cons_of_mem a hx)
          have h2t : c ∉ t2 := fun hx => h2 (List.mem_cons_of_mem a2 hx)
          obtain ⟨hte, hbe⟩ := ih bs t2 bs2 h1t h2t heq2
          exact ⟨by rw [hae, hte], hbe⟩

/-- Helper: the character decomposition of a formatted coin. -/
theorem formatCoin_data (c : Coin) :
    (formatCoin c).data
      = (jsNumToString c.i).data
          ++ (':') :: ((jsNumToString c.j).data ++ ('#') :: (jsNumToString c.number).data) := by
  unfold formatCoin
  rw [String.data_append, String.data_append, String.data_append, String.data_append]
  have h1 : ((":") : String).data = [(':')] := rfl
  have h2 : (("#") : String).data = [('#')] := rfl
  rw [h1, h2]
  simp [List.append_assoc]

/-- C9: the canonical coin formatter is injective on coins with integer fields:
two such coins format to the same string exactly when their i, j and number
fields coincide, so the canonical string is a valid unique identifier. -/
theorem formatCoin_inj (c1 c2 : Coin) (h1 : Coin.wf c1) (h2 : Coin.wf c2) :
    (formatCoin c1 = formatCoin c2) ↔ c1 = c2 := by
  constructor
  · intro h
    obtain ⟨hi1, hj1, hn1⟩ := h1
    obtain ⟨hi2, hj2, hn2⟩ := h2
    obtain ⟨a1, ha1⟩ := Option.isSome_iff_exists.mp hi1
    obtain ⟨b1, hb1⟩ := Option.isSome_iff_exists.mp hj1
    obtain ⟨d1, hd1⟩ := Option.isSome_iff_exists.mp hn1
    obtain ⟨a2, ha2⟩ := Option.isSome_iff_exists.mp hi2
    obtain ⟨b2, hb2⟩ := Option.isSome_iff_exists.mp hj2
    obtain ⟨d2, hd2⟩ := Option.isSome_iff_exists.mp hn2
    have hd := congrArg String.data h
    rw [formatCoin_data, formatCoin_data, ha1, hb1, hd1, ha2, hb2, hd2] at hd
    simp only [jsNumToString] at hd
    obtain ⟨e1, e2⟩ := append_cons_cancel (':') _ _ _ _
      (colon_not_mem_intToString a1) (colon_not_mem_intToString a2) hd
    obtain ⟨e3, e4⟩ := append_cons_cancel ('#') _ _ _ _
      (hash_not_mem_intToString b1) (hash_not_mem_intToString b2) e2
    have hia := intToString_inj a1 a2 (String.ext e1)
    have hjb := intToString_inj b1 b2 (String.ext e3)
    have hnd := intToString_inj d1 d2 (String.ext e4)
    cases c1
    cases c2
    simp_all
  · intro h
    rw [h]

/-- C9 witness: two concrete well-formed coins differing in their number field. -/
theorem formatCoin_inj_witness :
    Coin.wf { i := some 0, j := some 0, number := some 0 } ∧
    Coin.wf { i := some 0, j := some 0, number := some 1 } ∧
    ((formatCoin { i := some 0, j := some 0, number := some 0 }
        = formatCoin { i := some 0, j := some 0, number := some 1 })
      ↔ ({ i := some 0, j := some 0, number := some 0 } : Coin)
          = { i := some 0, j := some 0, number := some 1 }) :=
  ⟨⟨rfl, rfl, rfl⟩, ⟨rfl, rfl, rfl⟩,
   formatCoin_inj _ _ ⟨rfl, rfl, rfl⟩ ⟨rfl, rfl, rfl⟩⟩

end Geocaching
